import Mathlib

/-!
# Verification of the libbus1 peer/message subsystem

Shallow embedding of the `org.bus1` peer API (`src/org.bus1/b1-peer.h`)
and of the sample activator program (`src/test-activator.c`).

The repository ships only the public header and the activator sample; the
library implementation itself is not among the source files.  Where a
definition embeds code that is missing, its doc comment starts with
`Modelled from the spec:` and names the missing function; such definitions
follow the specification's wording.  Definitions for `test-activator.c`
are translated directly from that file.
-/

namespace Bus1

/-! ## Errno-style result codes (values as in `<errno.h>`) -/

def EPERM : Int := 1
def ENOENT : Int := 2
def ENOMEM : Int := 12
def EBUSY : Int := 16
def EINVAL : Int := 22
def ERANGE : Int := 34
def EBADMSG : Int := 74
def ENOTUNIQ : Int := 76
def ECONNRESET : Int := 104

/-! ## Byte-level primitives

Payload buffers are byte lists (`List Nat`, each entry `< 256` by
construction).  Multi-byte scalars are little-endian. -/

/-- Little-endian encoding of `n` into `w` bytes (truncating at `256 ^ w`). -/
def encodeLE (n : Nat) : Nat → List Nat
  | 0 => []
  | w + 1 => (n % 256) :: encodeLE (n / 256) w

/-- Value of a little-endian byte list. -/
def decodeLEList : List Nat → Nat
  | [] => 0
  | b :: bs => b + 256 * decodeLEList bs

/-- `w` bytes of `buf` starting at `pos`, when in bounds. -/
def sliceBytes (buf : List Nat) (pos w : Nat) : Option (List Nat) :=
  if pos + w ≤ buf.length then some ((buf.drop pos).take w) else none

/-- Read a `w`-byte little-endian scalar of `buf` at `pos`. -/
def readLE (buf : List Nat) (pos w : Nat) : Option Nat :=
  (sliceBytes buf pos w).map decodeLEList

theorem encodeLE_length (n w : Nat) : (encodeLE n w).length = w := by
  induction w generalizing n with
  | zero => rfl
  | succ w ih => simp [encodeLE, ih]

theorem decodeLEList_encodeLE (n w : Nat) (h : n < 256 ^ w) :
    decodeLEList (encodeLE n w) = n := by
  induction w generalizing n with
  | zero =>
    simp [pow_zero] at h
    simp [encodeLE, decodeLEList, h]
  | succ w ih =>
    have hdiv : n / 256 < 256 ^ w := by
      rw [Nat.div_lt_iff_lt_mul (by norm_num)]
      calc n < 256 ^ (w + 1) := h
        _ = 256 ^ w * 256 := by ring
    simp [encodeLE, decodeLEList, ih _ hdiv]
    omega

theorem sliceBytes_append (pre mid rest : List Nat) :
    sliceBytes (pre ++ mid ++ rest) pre.length mid.length = some mid := by
  unfold sliceBytes
  rw [if_pos]
  · congr 1
    rw [List.append_assoc, List.drop_left, List.take_left]
  · simp [List.length_append]

theorem sliceBytes_le {buf : List Nat} {pos w : Nat} {out : List Nat}
    (h : sliceBytes buf pos w = some out) : pos + w ≤ buf.length := by
  unfold sliceBytes at h
  by_cases hb : pos + w ≤ buf.length
  · exact hb
  · simp [hb] at h

theorem readLE_append (pre rest : List Nat) (n w : Nat) (h : n < 256 ^ w) :
    readLE (pre ++ encodeLE n w ++ rest) pre.length w = some n := by
  unfold readLE
  have := sliceBytes_append pre (encodeLE n w) rest
  rw [encodeLE_length] at this
  rw [this]
  simp [decodeLEList_encodeLE n w h]

theorem readLE_le {buf : List Nat} {pos w n : Nat}
    (h : readLE buf pos w = some n) : pos + w ≤ buf.length := by
  unfold readLE at h
  cases hs : sliceBytes buf pos w with
  | none => rw [hs] at h; simp at h
  | some l => exact sliceBytes_le hs

/-! ## Type signature codec

Modelled from the spec: the Type Signature Codec (§4.1, §6) of the missing
library implementation.  Signature grammar: scalar codes for
boolean/int8/16/32/64/uint variants/double/string/handle, `a<sig>` for
arrays, `(<sig>...)` for tuples, `v` for variants. -/

inductive B1Type : Type where
  | b : B1Type
  | u8 : B1Type
  | u16 : B1Type
  | u32 : B1Type
  | u64 : B1Type
  | i8 : B1Type
  | i16 : B1Type
  | i32 : B1Type
  | i64 : B1Type
  | f64 : B1Type
  | str : B1Type
  | hnd : B1Type
  | arr : B1Type → B1Type
  | tup : List B1Type → B1Type
  | var : B1Type

mutual

/-- Signature characters of one type (D-Bus-style codes, as in the sample's
"a(su)"). -/
def sigPrint : B1Type → List Char
  | B1Type.b => ['b']
  | B1Type.u8 => ['y']
  | B1Type.u16 => ['q']
  | B1Type.u32 => ['u']
  | B1Type.u64 => ['t']
  | B1Type.i8 => ['Y']
  | B1Type.i16 => ['n']
  | B1Type.i32 => ['i']
  | B1Type.i64 => ['x']
  | B1Type.f64 => ['d']
  | B1Type.str => ['s']
  | B1Type.hnd => ['h']
  | B1Type.arr t => 'a' :: sigPrint t
  | B1Type.tup ts => '(' :: (sigPrintList ts ++ [')'])
  | B1Type.var => ['v']

/-- Signature characters of a type sequence. -/
def sigPrintList : List B1Type → List Char
  | [] => []
  | t :: ts => sigPrint t ++ sigPrintList ts

end

/-- Single-character type codes (scalars and the variant code). -/
def sigParseChar1 (c : Char) : Option B1Type :=
  if c = 'b' then some B1Type.b
  else if c = 'y' then some B1Type.u8
  else if c = 'q' then some B1Type.u16
  else if c = 'u' then some B1Type.u32
  else if c = 't' then some B1Type.u64
  else if c = 'Y' then some B1Type.i8
  else if c = 'n' then some B1Type.i16
  else if c = 'i' then some B1Type.i32
  else if c = 'x' then some B1Type.i64
  else if c = 'd' then some B1Type.f64
  else if c = 's' then some B1Type.str
  else if c = 'h' then some B1Type.hnd
  else if c = 'v' then some B1Type.var
  else none

mutual

/-- Modelled from the spec: signature-string parsing by the missing codec.
Parses one type at position `pos` of `s`; returns the type and the number of
characters consumed. -/
def sigParseOne (s : List Char) (pos : Nat) : Option (B1Type × Nat) :=
  match h : s[pos]? with
  | none => none
  | some c =>
    match sigParseChar1 c with
    | some t => some (t, 1)
    | none =>
      if c = 'a' then
        match sigParseOne s (pos + 1) with
        | some (t, d) => some (B1Type.arr t, 1 + d)
        | none => none
      else if c = '(' then
        match sigParseMany s (pos + 1) with
        | some (ts, d) => some (B1Type.tup ts, 1 + d)
        | none => none
      else none
termination_by (s.length - pos, 1)
decreasing_by
  all_goals simp_wf
  all_goals
    apply Prod.Lex.left
  all_goals
    have hpos : pos < s.length := by
      by_contra hc
      rw [List.getElem?_eq_none (by omega)] at h
      exact Option.noConfusion h
  all_goals omega

/-- Parses types until a closing `)` (consumed); returns the types and the
number of characters consumed, the `)` included. -/
def sigParseMany (s : List Char) (pos : Nat) : Option (List B1Type × Nat) :=
  match h : s[pos]? with
  | none => none
  | some c =>
    if c = ')' then some ([], 1)
    else
      match sigParseOne s pos with
      | some (t, d) =>
        if hd : 0 < d then
          match sigParseMany s (pos + d) with
          | some (ts, d') => some (t :: ts, d + d')
          | none => none
        else none
      | none => none
termination_by (s.length - pos, 2)
decreasing_by
  all_goals simp_wf
  all_goals
    have hpos : pos < s.length := by
      by_contra hc
      rw [List.getElem?_eq_none (by omega)] at h
      exact Option.noConfusion h
  · apply Prod.Lex.right
    omega
  · apply Prod.Lex.left
    omega

end

theorem getElem_append_cons {α : Type} (pre : List α) (c : α) (tail rest : List α) :
    (pre ++ (c :: tail) ++ rest)[pre.length]? = some c := by
  rw [List.append_assoc, List.getElem?_append_right (le_refl pre.length)]
  simp

theorem sigParseOne_char1 {s : List Char} {pos : Nat} {c : Char} {t : B1Type}
    (hc : s[pos]? = some c) (h1 : sigParseChar1 c = some t) :
    sigParseOne s pos = some (t, 1) := by
  rw [sigParseOne]
  split
  · simp_all
  · rename_i c' heq
    rw [hc] at heq
    injection heq with heq
    subst heq
    rw [h1]

theorem sigParseOne_arr {s : List Char} {pos : Nat}
    (hc : s[pos]? = some 'a') :
    sigParseOne s pos =
      match sigParseOne s (pos + 1) with
      | some (t, d) => some (B1Type.arr t, 1 + d)
      | none => none := by
  rw [sigParseOne]
  split
  · simp_all
  · rename_i c' heq
    rw [hc] at heq
    injection heq with heq
    subst heq
    rfl

theorem sigParseOne_tup {s : List Char} {pos : Nat}
    (hc : s[pos]? = some '(') :
    sigParseOne s pos =
      match sigParseMany s (pos + 1) with
      | some (ts, d) => some (B1Type.tup ts, 1 + d)
      | none => none := by
  rw [sigParseOne]
  split
  · simp_all
  · rename_i c' heq
    rw [hc] at heq
    injection heq with heq
    subst heq
    rfl

theorem sigParseMany_close {s : List Char} {pos : Nat}
    (hc : s[pos]? = some ')') :
    sigParseMany s pos = some ([], 1) := by
  rw [sigParseMany]
  split
  · simp_all
  · rename_i c' heq
    rw [hc] at heq
    injection heq with heq
    subst heq
    rfl

theorem sigParseMany_step {s : List Char} {pos : Nat} {c : Char} {t : B1Type}
    {d : Nat} {ts : List B1Type} {d' : Nat}
    (hc : s[pos]? = some c) (hne : c ≠ ')')
    (h1 : sigParseOne s pos = some (t, d)) (hd : 0 < d)
    (h2 : sigParseMany s (pos + d) = some (ts, d')) :
    sigParseMany s pos = some (t :: ts, d + d') := by
  rw [sigParseMany]
  split
  · simp_all
  · rename_i c' heq
    rw [hc] at heq
    injection heq with heq
    subst heq
    rw [if_neg hne]
    split
    · rename_i t' d2 heq1
      rw [h1] at heq1
      injection heq1 with heq1
      injection heq1 with he1 he2
      subst he1
      subst he2
      rw [dif_pos hd]
      split
      · rename_i ts2 d2' heq2
        rw [h2] at heq2
        injection heq2 with heq2
        injection heq2 with he3 he4
        subst he3
        subst he4
        rfl
      · rename_i heq2
        rw [h2] at heq2
        exact Option.noConfusion heq2
    · rename_i heq1
      rw [h1] at heq1
      exact Option.noConfusion heq1

/-- Parse a complete signature string as exactly one type. -/
def sigParseFull (s : List Char) : Option B1Type :=
  match sigParseOne s 0 with
  | some (t, d) => if d = s.length then some t else none
  | none => none

/-- The first character printed for a type is a type code, never `)`. -/
theorem sigPrint_head (t : B1Type) :
    ∃ c cs, sigPrint t = c :: cs ∧ c ≠ ')' := by
  cases t <;> exact ⟨_, _, rfl, by decide⟩

mutual

/-- Parsing recovers any printed type, at any position of any buffer. -/
theorem sigParseOne_print (t : B1Type) (pre rest : List Char) :
    sigParseOne (pre ++ sigPrint t ++ rest) pre.length =
      some (t, (sigPrint t).length) := by
  cases t with
  | arr te =>
    have hc : (pre ++ sigPrint (B1Type.arr te) ++ rest)[pre.length]? = some 'a' :=
      getElem_append_cons pre 'a' (sigPrint te) rest
    have ih := sigParseOne_print te (pre ++ ['a']) rest
    rw [sigParseOne_arr hc]
    have hs : (pre ++ ['a']) ++ sigPrint te ++ rest =
        pre ++ sigPrint (B1Type.arr te) ++ rest := by
      simp [sigPrint]
    have hl : (pre ++ ['a']).length = pre.length + 1 := by simp
    rw [hs, hl] at ih
    rw [ih]
    simp [sigPrint, Nat.add_comm]
  | tup ts =>
    have hc : (pre ++ sigPrint (B1Type.tup ts) ++ rest)[pre.length]? = some '(' :=
      getElem_append_cons pre '(' (sigPrintList ts ++ [')']) rest
    have ih := sigParseMany_print ts (pre ++ ['(']) rest
    rw [sigParseOne_tup hc]
    have hs : (pre ++ ['(']) ++ sigPrintList ts ++ ')' :: rest =
        pre ++ sigPrint (B1Type.tup ts) ++ rest := by
      simp [sigPrint]
    have hl : (pre ++ ['(']).length = pre.length + 1 := by simp
    rw [hs, hl] at ih
    rw [ih]
    simp [sigPrint, Nat.add_comm]
  | b => exact sigParseOne_char1 (getElem_append_cons pre 'b' [] rest) rfl
  | u8 => exact sigParseOne_char1 (getElem_append_cons pre 'y' [] rest) rfl
  | u16 => exact sigParseOne_char1 (getElem_append_cons pre 'q' [] rest) rfl
  | u32 => exact sigParseOne_char1 (getElem_append_cons pre 'u' [] rest) rfl
  | u64 => exact sigParseOne_char1 (getElem_append_cons pre 't' [] rest) rfl
  | i8 => exact sigParseOne_char1 (getElem_append_cons pre 'Y' [] rest) rfl
  | i16 => exact sigParseOne_char1 (getElem_append_cons pre 'n' [] rest) rfl
  | i32 => exact sigParseOne_char1 (getElem_append_cons pre 'i' [] rest) rfl
  | i64 => exact sigParseOne_char1 (getElem_append_cons pre 'x' [] rest) rfl
  | f64 => exact sigParseOne_char1 (getElem_append_cons pre 'd' [] rest) rfl
  | str => exact sigParseOne_char1 (getElem_append_cons pre 's' [] rest) rfl
  | hnd => exact sigParseOne_char1 (getElem_append_cons pre 'h' [] rest) rfl
  | var => exact sigParseOne_char1 (getElem_append_cons pre 'v' [] rest) rfl

/-- Parsing recovers any printed type sequence up to its closing `)`. -/
theorem sigParseMany_print (ts : List B1Type) (pre rest : List Char) :
    sigParseMany (pre ++ sigPrintList ts ++ ')' :: rest) pre.length =
      some (ts, (sigPrintList ts).length + 1) := by
  cases ts with
  | nil =>
    have hc : (pre ++ sigPrintList [] ++ ')' :: rest)[pre.length]? = some ')' := by
      rw [show pre ++ sigPrintList [] ++ ')' :: rest = pre ++ (')' :: rest) ++ [] by
        simp [sigPrintList]]
      exact getElem_append_cons pre ')' rest []
    rw [sigParseMany_close hc]
    simp [sigPrintList]
  | cons t ts' =>
    obtain ⟨c, cs, hct, hcne⟩ := sigPrint_head t
    have hc : (pre ++ sigPrintList (t :: ts') ++ ')' :: rest)[pre.length]? = some c := by
      rw [show pre ++ sigPrintList (t :: ts') ++ ')' :: rest =
            pre ++ (c :: (cs ++ sigPrintList ts' ++ ')' :: rest)) ++ [] by
        simp [sigPrintList, hct]]
      exact getElem_append_cons pre c _ []
    have ih1 := sigParseOne_print t pre (sigPrintList ts' ++ ')' :: rest)
    have hs1 : pre ++ sigPrint t ++ (sigPrintList ts' ++ ')' :: rest) =
        pre ++ sigPrintList (t :: ts') ++ ')' :: rest := by
      simp [sigPrintList]
    rw [hs1] at ih1
    have ih2 := sigParseMany_print ts' (pre ++ sigPrint t) rest
    have hs2 : (pre ++ sigPrint t) ++ sigPrintList ts' ++ ')' :: rest =
        pre ++ sigPrintList (t :: ts') ++ ')' :: rest := by
      simp [sigPrintList]
    have hl2 : (pre ++ sigPrint t).length = pre.length + (sigPrint t).length := by
      simp
    rw [hs2, hl2] at ih2
    have hlen : 0 < (sigPrint t).length := by
      rw [hct]; simp
    rw [sigParseMany_step hc hcne ih1 hlen ih2]
    simp [sigPrintList]
    omega

end

/-- A printed signature parses back to its type, consuming the whole string. -/
theorem sigParseFull_print (t : B1Type) : sigParseFull (sigPrint t) = some t := by
  unfold sigParseFull
  have h := sigParseOne_print t [] []
  simp only [List.nil_append, List.append_nil, List.length_nil] at h
  rw [h]
  simp

/-- Modelled from the spec: parsing a signature string as a sequence of types
(the payload of a message is described by such a sequence, e.g. "a(su)"). -/
def sigParseSeqAux (s : List Char) (pos : Nat) : Option (List B1Type) :=
  if hpos : pos < s.length then
    match sigParseOne s pos with
    | some (t, d) =>
      if hd : 0 < d then
        match sigParseSeqAux s (pos + d) with
        | some ts => some (t :: ts)
        | none => none
      else none
    | none => none
  else some []
termination_by s.length - pos

/-- Parse a whole signature string into its sequence of types. -/
def sigParseSeq (s : List Char) : Option (List B1Type) :=
  sigParseSeqAux s 0

/-! ## Values

Modelled from the spec: the marshalled value domain of the missing codec.
Machine scalars are carried as their wire bit patterns (`Nat` below the
relevant power of two); strings are byte strings. -/

inductive B1Value : Type where
  | vb : Bool → B1Value
  | vu8 : Nat → B1Value
  | vu16 : Nat → B1Value
  | vu32 : Nat → B1Value
  | vu64 : Nat → B1Value
  | vi8 : Nat → B1Value
  | vi16 : Nat → B1Value
  | vi32 : Nat → B1Value
  | vi64 : Nat → B1Value
  | vf64 : Nat → B1Value
  | vstr : List Nat → B1Value
  | vh : Nat → B1Value
  | varr : List B1Value → B1Value
  | vtup : List B1Value → B1Value
  | vvar : B1Type → B1Value → B1Value

mutual

/-- A value is encodable at a type when its scalars fit their wire widths
and its shape follows the type. -/
def hasType : B1Value → B1Type → Bool
  | B1Value.vb _, B1Type.b => true
  | B1Value.vu8 n, B1Type.u8 => decide (n < 2 ^ 8)
  | B1Value.vu16 n, B1Type.u16 => decide (n < 2 ^ 16)
  | B1Value.vu32 n, B1Type.u32 => decide (n < 2 ^ 32)
  | B1Value.vu64 n, B1Type.u64 => decide (n < 2 ^ 64)
  | B1Value.vi8 n, B1Type.i8 => decide (n < 2 ^ 8)
  | B1Value.vi16 n, B1Type.i16 => decide (n < 2 ^ 16)
  | B1Value.vi32 n, B1Type.i32 => decide (n < 2 ^ 32)
  | B1Value.vi64 n, B1Type.i64 => decide (n < 2 ^ 64)
  | B1Value.vf64 n, B1Type.f64 => decide (n < 2 ^ 64)
  | B1Value.vstr s, B1Type.str =>
    decide (s.length < 2 ^ 32) && s.all (fun b => decide (b < 256))
  | B1Value.vh n, B1Type.hnd => decide (n < 2 ^ 32)
  | B1Value.varr vs, B1Type.arr te =>
    decide (vs.length < 2 ^ 32) && hasTypeArr vs te
  | B1Value.vtup vs, B1Type.tup ts => hasTypeList vs ts
  | B1Value.vvar t' v', B1Type.var =>
    decide ((sigPrint t').length < 2 ^ 32) && hasType v' t'
  | _, _ => false

/-- All elements of an array body are encodable at the element type. -/
def hasTypeArr : List B1Value → B1Type → Bool
  | [], _ => true
  | v :: vs, te => hasType v te && hasTypeArr vs te

/-- A value sequence is encodable pointwise at a type sequence. -/
def hasTypeList : List B1Value → List B1Type → Bool
  | [], [] => true
  | v :: vs, t :: ts => hasType v t && hasTypeList vs ts
  | _, _ => false

end

mutual

/-- Modelled from the spec: the marshaller of the missing codec.  Little
endian scalars; strings and arrays length-prefixed; arrays also carry their
element count; variants embed their signature string. -/
def encodeVal : B1Value → List Nat
  | B1Value.vb x => encodeLE (if x then 1 else 0) 1
  | B1Value.vu8 n => encodeLE n 1
  | B1Value.vu16 n => encodeLE n 2
  | B1Value.vu32 n => encodeLE n 4
  | B1Value.vu64 n => encodeLE n 8
  | B1Value.vi8 n => encodeLE n 1
  | B1Value.vi16 n => encodeLE n 2
  | B1Value.vi32 n => encodeLE n 4
  | B1Value.vi64 n => encodeLE n 8
  | B1Value.vf64 n => encodeLE n 8
  | B1Value.vstr s => encodeLE s.length 4 ++ s
  | B1Value.vh n => encodeLE n 4
  | B1Value.varr vs =>
    encodeLE (encodeArr vs).length 4 ++ encodeLE vs.length 4 ++ encodeArr vs
  | B1Value.vtup vs => encodeArr vs
  | B1Value.vvar t v =>
    encodeLE (sigPrint t).length 4 ++ (sigPrint t).map Char.toNat ++ encodeVal v

/-- Concatenated encodings of a value sequence (array bodies and tuples). -/
def encodeArr : List B1Value → List Nat
  | [] => []
  | v :: vs => encodeVal v ++ encodeArr vs

end

/-- Helper for three-component lexicographic termination measures. -/
theorem lex3_of {a₁ a₂ b₁ b₂ c₁ c₂ : Nat}
    (h : a₁ < a₂ ∨ (a₁ = a₂ ∧ (b₁ < b₂ ∨ (b₁ = b₂ ∧ c₁ < c₂)))) :
    Prod.Lex (· < ·) (Prod.Lex (· < ·) (· < ·)) (a₁, (b₁, c₁)) (a₂, (b₂, c₂)) := by
  rcases h with h | ⟨rfl, h | ⟨rfl, h⟩⟩
  · exact Prod.Lex.left _ _ h
  · exact Prod.Lex.right _ (Prod.Lex.left _ _ h)
  · exact Prod.Lex.right _ (Prod.Lex.right _ h)

mutual

/-- Modelled from the spec: the unmarshaller of the missing codec.  Reads one
value of type `t` at byte position `pos` of `buf`; returns the value and the
number of bytes consumed. -/
def decodeVal (buf : List Nat) (t : B1Type) (pos : Nat) : Option (B1Value × Nat) :=
  match t with
  | B1Type.b =>
    match readLE buf pos 1 with
    | some 0 => some (B1Value.vb false, 1)
    | some 1 => some (B1Value.vb true, 1)
    | _ => none
  | B1Type.u8 =>
    match readLE buf pos 1 with
    | some n => some (B1Value.vu8 n, 1)
    | none => none
  | B1Type.u16 =>
    match readLE buf pos 2 with
    | some n => some (B1Value.vu16 n, 2)
    | none => none
  | B1Type.u32 =>
    match readLE buf pos 4 with
    | some n => some (B1Value.vu32 n, 4)
    | none => none
  | B1Type.u64 =>
    match readLE buf pos 8 with
    | some n => some (B1Value.vu64 n, 8)
    | none => none
  | B1Type.i8 =>
    match readLE buf pos 1 with
    | some n => some (B1Value.vi8 n, 1)
    | none => none
  | B1Type.i16 =>
    match readLE buf pos 2 with
    | some n => some (B1Value.vi16 n, 2)
    | none => none
  | B1Type.i32 =>
    match readLE buf pos 4 with
    | some n => some (B1Value.vi32 n, 4)
    | none => none
  | B1Type.i64 =>
    match readLE buf pos 8 with
    | some n => some (B1Value.vi64 n, 8)
    | none => none
  | B1Type.f64 =>
    match readLE buf pos 8 with
    | some n => some (B1Value.vf64 n, 8)
    | none => none
  | B1Type.str =>
    match readLE buf pos 4 with
    | some len =>
      match sliceBytes buf (pos + 4) len with
      | some bytes => some (B1Value.vstr bytes, 4 + len)
      | none => none
    | none => none
  | B1Type.hnd =>
    match readLE buf pos 4 with
    | some n => some (B1Value.vh n, 4)
    | none => none
  | B1Type.arr te =>
    match readLE buf pos 4 with
    | some _ =>
      match readLE buf (pos + 4) 4 with
      | some n =>
        match decodeArr buf te n (pos + 8) with
        | some (vs, d) => some (B1Value.varr vs, 8 + d)
        | none => none
      | none => none
    | none => none
  | B1Type.tup ts =>
    match decodeTup buf ts pos with
    | some (vs, d) => some (B1Value.vtup vs, d)
    | none => none
  | B1Type.var =>
    match h1 : readLE buf pos 4 with
    | some len =>
      match h2 : sliceBytes buf (pos + 4) len with
      | some sigBytes =>
        match sigParseFull (sigBytes.map Char.ofNat) with
        | some t' =>
          match decodeVal buf t' (pos + 4 + len) with
          | some (v, d) => some (B1Value.vvar t' v, 4 + len + d)
          | none => none
        | none => none
      | none => none
    | none => none
termination_by (buf.length - pos, sizeOf t, 0)
decreasing_by
  all_goals simp_wf
  · apply lex3_of
    try simp
    try omega
  · apply lex3_of
    try simp
    try omega
  · have hb1 := readLE_le h1
    have hb2 := sliceBytes_le h2
    apply lex3_of
    left
    omega

/-- Reads `n` consecutive values of type `te` starting at `pos`. -/
def decodeArr (buf : List Nat) (te : B1Type) (n pos : Nat) : Option (List B1Value × Nat) :=
  match n with
  | 0 => some ([], 0)
  | n' + 1 =>
    match decodeVal buf te pos with
    | some (v, d) =>
      match decodeArr buf te n' (pos + d) with
      | some (vs, d') => some (v :: vs, d + d')
      | none => none
    | none => none
termination_by (buf.length - pos, sizeOf te, n + 1)
decreasing_by
  all_goals simp_wf
  all_goals apply lex3_of
  all_goals try simp
  all_goals omega

/-- Reads one value per type of `ts`, consecutively from `pos`. -/
def decodeTup (buf : List Nat) (ts : List B1Type) (pos : Nat) : Option (List B1Value × Nat) :=
  match ts with
  | [] => some ([], 0)
  | t :: ts' =>
    match decodeVal buf t pos with
    | some (v, d) =>
      match decodeTup buf ts' (pos + d) with
      | some (vs, d') => some (v :: vs, d + d')
      | none => none
    | none => none
termination_by (buf.length - pos, sizeOf ts, 0)
decreasing_by
  all_goals simp_wf
  all_goals apply lex3_of
  all_goals try simp
  all_goals omega

end

theorem readLE_append_any (pre rest : List Nat) (n w : Nat) :
    readLE (pre ++ encodeLE n w ++ rest) pre.length w =
      some (decodeLEList (encodeLE n w)) := by
  unfold readLE
  have h := sliceBytes_append pre (encodeLE n w) rest
  rw [encodeLE_length] at h
  rw [h]
  rfl

theorem map_ofNat_toNat (l : List Char) : (l.map Char.toNat).map Char.ofNat = l := by
  induction l with
  | nil => rfl
  | cons c cs ih => simp [Char.ofNat_toNat, ih]

set_option maxHeartbeats 1600000 in
/-- Round-trip at the byte level, by strong induction on value size: a
well-typed encoded value decodes back exactly, at any buffer position; the
same holds for array bodies and tuple field sequences. -/
theorem roundtrip_bound (k : Nat) :
    (∀ v t, sizeOf v ≤ k → hasType v t = true → ∀ pre rest : List Nat,
      decodeVal (pre ++ encodeVal v ++ rest) t pre.length =
        some (v, (encodeVal v).length)) ∧
    (∀ vs te, sizeOf vs ≤ k → hasTypeArr vs te = true → ∀ pre rest : List Nat,
      decodeArr (pre ++ encodeArr vs ++ rest) te vs.length pre.length =
        some (vs, (encodeArr vs).length)) ∧
    (∀ vs ts, sizeOf vs ≤ k → hasTypeList vs ts = true → ∀ pre rest : List Nat,
      decodeTup (pre ++ encodeArr vs ++ rest) ts pre.length =
        some (vs, (encodeArr vs).length)) := by
  induction k with
  | zero =>
    refine ⟨?_, ?_, ?_⟩
    · intro v t hsz
      cases v <;> simp at hsz
    · intro vs te hsz
      cases vs <;> simp at hsz
    · intro vs ts hsz
      cases vs <;> simp at hsz
  | succ k ih =>
    obtain ⟨ihv, iha, iht⟩ := ih
    refine ⟨?_, ?_, ?_⟩
    · intro v t hsz hv pre rest
      cases v with
      | vb x =>
        cases t <;> try (simp only [hasType] at hv)
        all_goals try (exact Bool.noConfusion hv)
        case b =>
          simp only [encodeVal]
          rw [decodeVal.eq_def]
          dsimp only
          rw [readLE_append pre rest (if x then 1 else 0) 1 (by cases x <;> norm_num)]
          cases x <;> simp [encodeLE_length]
      | vu8 n =>
        cases t <;> try (simp only [hasType, decide_eq_true_eq] at hv)
        all_goals try (exact Bool.noConfusion hv)
        case u8 =>
          simp only [encodeVal]
          rw [decodeVal.eq_def]
          dsimp only
          rw [readLE_append pre rest n 1 (by simpa using hv)]
          simp [encodeLE_length]
      | vu16 n =>
        cases t <;> try (simp only [hasType, decide_eq_true_eq] at hv)
        all_goals try (exact Bool.noConfusion hv)
        case u16 =>
          simp only [encodeVal]
          rw [decodeVal.eq_def]
          dsimp only
          rw [readLE_append pre rest n 2 (by simpa using hv)]
          simp [encodeLE_length]
      | vu32 n =>
        cases t <;> try (simp only [hasType, decide_eq_true_eq] at hv)
        all_goals try (exact Bool.noConfusion hv)
        case u32 =>
          simp only [encodeVal]
          rw [decodeVal.eq_def]
          dsimp only
          rw [readLE_append pre rest n 4 (by simpa using hv)]
          simp [encodeLE_length]
      | vu64 n =>
        cases t <;> try (simp only [hasType, decide_eq_true_eq] at hv)
        all_goals try (exact Bool.noConfusion hv)
        case u64 =>
          simp only [encodeVal]
          rw [decodeVal.eq_def]
          dsimp only
          rw [readLE_append pre rest n 8 (by simpa using hv)]
          simp [encodeLE_length]
      | vi8 n =>
        cases t <;> try (simp only [hasType, decide_eq_true_eq] at hv)
        all_goals try (exact Bool.noConfusion hv)
        case i8 =>
          simp only [encodeVal]
          rw [decodeVal.eq_def]
          dsimp only
          rw [readLE_append pre rest n 1 (by simpa using hv)]
          simp [encodeLE_length]
      | vi16 n =>
        cases t <;> try (simp only [hasType, decide_eq_true_eq] at hv)
        all_goals try (exact Bool.noConfusion hv)
        case i16 =>
          simp only [encodeVal]
          rw [decodeVal.eq_def]
          dsimp only
          rw [readLE_append pre rest n 2 (by simpa using hv)]
          simp [encodeLE_length]
      | vi32 n =>
        cases t <;> try (simp only [hasType, decide_eq_true_eq] at hv)
        all_goals try (exact Bool.noConfusion hv)
        case i32 =>
          simp only [encodeVal]
          rw [decodeVal.eq_def]
          dsimp only
          rw [readLE_append pre rest n 4 (by simpa using hv)]
          simp [encodeLE_length]
      | vi64 n =>
        cases t <;> try (simp only [hasType, decide_eq_true_eq] at hv)
        all_goals try (exact Bool.noConfusion hv)
        case i64 =>
          simp only [encodeVal]
          rw [decodeVal.eq_def]
          dsimp only
          rw [readLE_append pre rest n 8 (by simpa using hv)]
          simp [encodeLE_length]
      | vf64 n =>
        cases t <;> try (simp only [hasType, decide_eq_true_eq] at hv)
        all_goals try (exact Bool.noConfusion hv)
        case f64 =>
          simp only [encodeVal]
          rw [decodeVal.eq_def]
          dsimp only
          rw [readLE_append pre rest n 8 (by simpa using hv)]
          simp [encodeLE_length]
      | vh n =>
        cases t <;> try (simp only [hasType, decide_eq_true_eq] at hv)
        all_goals try (exact Bool.noConfusion hv)
        case hnd =>
          simp only [encodeVal]
          rw [decodeVal.eq_def]
          dsimp only
          rw [readLE_append pre rest n 4 (by simpa using hv)]
          simp [encodeLE_length]
      | vstr sb =>
        cases t <;> try (simp only [hasType, Bool.and_eq_true, decide_eq_true_eq] at hv)
        all_goals try (exact Bool.noConfusion hv)
        case str =>
          obtain ⟨hlen, -⟩ := hv
          simp only [encodeVal]
          rw [decodeVal.eq_def]
          dsimp only
          have hb1 : pre ++ (encodeLE sb.length 4 ++ sb) ++ rest =
              pre ++ encodeLE sb.length 4 ++ (sb ++ rest) := by
            simp
          rw [hb1, readLE_append pre (sb ++ rest) sb.length 4 (by simpa using hlen)]
          dsimp only
          have hb2 : pre ++ encodeLE sb.length 4 ++ (sb ++ rest) =
              (pre ++ encodeLE sb.length 4) ++ sb ++ rest := by
            simp
          have hp2 : pre.length + 4 = (pre ++ encodeLE sb.length 4).length := by
            simp [encodeLE_length]
          rw [hb2, hp2, sliceBytes_append]
          simp [encodeLE_length]
      | varr vs =>
        cases t <;> try (simp only [hasType, Bool.and_eq_true, decide_eq_true_eq] at hv)
        all_goals try (exact Bool.noConfusion hv)
        case arr te =>
          obtain ⟨hn, harr⟩ := hv
          have hszvs : sizeOf vs ≤ k := by
            simp at hsz
            omega
          simp only [encodeVal]
          rw [decodeVal.eq_def]
          dsimp only
          have hb1 : pre ++ (encodeLE (encodeArr vs).length 4 ++
                encodeLE vs.length 4 ++ encodeArr vs) ++ rest =
              pre ++ encodeLE (encodeArr vs).length 4 ++
                (encodeLE vs.length 4 ++ (encodeArr vs ++ rest)) := by
            simp
          rw [hb1, readLE_append_any pre
                (encodeLE vs.length 4 ++ (encodeArr vs ++ rest)) (encodeArr vs).length 4]
          dsimp only
          have hb2 : pre ++ encodeLE (encodeArr vs).length 4 ++
                (encodeLE vs.length 4 ++ (encodeArr vs ++ rest)) =
              (pre ++ encodeLE (encodeArr vs).length 4) ++
                encodeLE vs.length 4 ++ (encodeArr vs ++ rest) := by
            simp
          have hp2 : pre.length + 4 = (pre ++ encodeLE (encodeArr vs).length 4).length := by
            simp [encodeLE_length]
          rw [hb2, hp2, readLE_append (pre ++ encodeLE (encodeArr vs).length 4)
                (encodeArr vs ++ rest) vs.length 4 (by simpa using hn)]
          dsimp only
          have hb3 : (pre ++ encodeLE (encodeArr vs).length 4) ++
                encodeLE vs.length 4 ++ (encodeArr vs ++ rest) =
              (pre ++ encodeLE (encodeArr vs).length 4 ++ encodeLE vs.length 4) ++
                encodeArr vs ++ rest := by
            simp
          have hp8 : pre.length + 8 =
              (pre ++ encodeLE (encodeArr vs).length 4 ++ encodeLE vs.length 4).length := by
            simp [encodeLE_length]
          rw [hb3, hp8, iha vs te hszvs harr
                (pre ++ encodeLE (encodeArr vs).length 4 ++ encodeLE vs.length 4) rest]
          dsimp only
          simp [encodeLE_length]
          omega
      | vtup vs =>
        cases t <;> try (simp only [hasType] at hv)
        all_goals try (exact Bool.noConfusion hv)
        case tup ts =>
          have hszvs : sizeOf vs ≤ k := by
            simp at hsz
            omega
          simp only [encodeVal]
          rw [decodeVal.eq_def]
          dsimp only
          rw [iht vs ts hszvs hv pre rest]
      | vvar tv vv =>
        cases t <;> try (simp only [hasType, Bool.and_eq_true, decide_eq_true_eq] at hv)
        all_goals try (exact Bool.noConfusion hv)
        case var =>
          obtain ⟨hlen, hvv⟩ := hv
          have hszvv : sizeOf vv ≤ k := by
            simp at hsz
            omega
          simp only [encodeVal]
          rw [decodeVal.eq_def]
          dsimp only
          have hb1 : pre ++ (encodeLE (sigPrint tv).length 4 ++
                (sigPrint tv).map Char.toNat ++ encodeVal vv) ++ rest =
              pre ++ encodeLE (sigPrint tv).length 4 ++
                ((sigPrint tv).map Char.toNat ++ (encodeVal vv ++ rest)) := by
            simp
          rw [hb1, readLE_append pre
                ((sigPrint tv).map Char.toNat ++ (encodeVal vv ++ rest))
                (sigPrint tv).length 4 (by simpa using hlen)]
          dsimp only
          have hb2 : pre ++ encodeLE (sigPrint tv).length 4 ++
                ((sigPrint tv).map Char.toNat ++ (encodeVal vv ++ rest)) =
              (pre ++ encodeLE (sigPrint tv).length 4) ++
                (sigPrint tv).map Char.toNat ++ (encodeVal vv ++ rest) := by
            simp
          have hp2 : pre.length + 4 = (pre ++ encodeLE (sigPrint tv).length 4).length := by
            simp [encodeLE_length]
          have hsl := sliceBytes_append (pre ++ encodeLE (sigPrint tv).length 4)
                ((sigPrint tv).map Char.toNat) (encodeVal vv ++ rest)
          rw [List.length_map] at hsl
          rw [hb2, hp2, hsl]
          dsimp only
          rw [map_ofNat_toNat, sigParseFull_print tv]
          dsimp only
          have hb3 : (pre ++ encodeLE (sigPrint tv).length 4) ++
                (sigPrint tv).map Char.toNat ++ (encodeVal vv ++ rest) =
              (pre ++ encodeLE (sigPrint tv).length 4 ++
                (sigPrint tv).map Char.toNat) ++ encodeVal vv ++ rest := by
            simp
          have hp3 : (pre ++ encodeLE (sigPrint tv).length 4).length + (sigPrint tv).length =
              (pre ++ encodeLE (sigPrint tv).length 4 ++
                (sigPrint tv).map Char.toNat).length := by
            simp [encodeLE_length]
            omega
          rw [hb3, hp3, ihv vv tv hszvv hvv
                (pre ++ encodeLE (sigPrint tv).length 4 ++
                  (sigPrint tv).map Char.toNat) rest]
          dsimp only
          simp [encodeLE_length]
          omega
    · intro vs te hsz hv pre rest
      cases vs with
      | nil =>
        simp only [encodeArr, List.length_nil]
        rw [decodeArr.eq_def]
      | cons v vs' =>
        simp only [hasTypeArr, Bool.and_eq_true] at hv
        obtain ⟨hv1, hv2⟩ := hv
        have hszv : sizeOf v ≤ k := by
          simp at hsz
          omega
        have hszvs : sizeOf vs' ≤ k := by
          simp at hsz
          omega
        simp only [encodeArr, List.length_cons]
        rw [decodeArr.eq_def]
        dsimp only
        have hb1 : pre ++ (encodeVal v ++ encodeArr vs') ++ rest =
            pre ++ encodeVal v ++ (encodeArr vs' ++ rest) := by
          simp
        rw [hb1, ihv v te hszv hv1 pre (encodeArr vs' ++ rest)]
        dsimp only
        have hb2 : pre ++ encodeVal v ++ (encodeArr vs' ++ rest) =
            (pre ++ encodeVal v) ++ encodeArr vs' ++ rest := by
          simp
        have hp2 : pre.length + (encodeVal v).length = (pre ++ encodeVal v).length := by
          simp
        rw [hb2, hp2, iha vs' te hszvs hv2 (pre ++ encodeVal v) rest]
        simp
    · intro vs ts hsz hv pre rest
      cases vs with
      | nil =>
        cases ts with
        | nil =>
          simp only [encodeArr]
          rw [decodeTup.eq_def]
          dsimp only
          rfl
        | cons t ts' => simp [hasTypeList] at hv
      | cons v vs' =>
        cases ts with
        | nil => simp [hasTypeList] at hv
        | cons t ts' =>
          simp only [hasTypeList, Bool.and_eq_true] at hv
          obtain ⟨hv1, hv2⟩ := hv
          have hszv : sizeOf v ≤ k := by
            simp at hsz
            omega
          have hszvs : sizeOf vs' ≤ k := by
            simp at hsz
            omega
          simp only [encodeArr]
          rw [decodeTup.eq_def]
          dsimp only
          have hb1 : pre ++ (encodeVal v ++ encodeArr vs') ++ rest =
              pre ++ encodeVal v ++ (encodeArr vs' ++ rest) := by
            simp
          rw [hb1, ihv v t hszv hv1 pre (encodeArr vs' ++ rest)]
          dsimp only
          have hb2 : pre ++ encodeVal v ++ (encodeArr vs' ++ rest) =
              (pre ++ encodeVal v) ++ encodeArr vs' ++ rest := by
            simp
          have hp2 : pre.length + (encodeVal v).length = (pre ++ encodeVal v).length := by
            simp
          rw [hb2, hp2, iht vs' ts' hszvs hv2 (pre ++ encodeVal v) rest]
          simp

/-- A well-typed encoded value decodes back to itself. -/
theorem decodeVal_encodeVal (v : B1Value) (t : B1Type) (hv : hasType v t = true)
    (pre rest : List Nat) :
    decodeVal (pre ++ encodeVal v ++ rest) t pre.length =
      some (v, (encodeVal v).length) :=
  (roundtrip_bound (sizeOf v)).1 v t le_rfl hv pre rest

/-- A well-typed encoded tuple body decodes back to itself. -/
theorem decodeTup_encodeArr (vs : List B1Value) (ts : List B1Type)
    (hv : hasTypeList vs ts = true) (pre rest : List Nat) :
    decodeTup (pre ++ encodeArr vs ++ rest) ts pre.length =
      some (vs, (encodeArr vs).length) :=
  (roundtrip_bound (sizeOf vs)).2.2 vs ts le_rfl hv pre rest

theorem sigParseSeqAux_print (ts : List B1Type) (pre : List Char) :
    sigParseSeqAux (pre ++ sigPrintList ts) pre.length = some ts := by
  induction ts generalizing pre with
  | nil =>
    rw [sigParseSeqAux.eq_def]
    rw [dif_neg]
    simp [sigPrintList]
  | cons t ts' ih =>
    obtain ⟨c, cs, hct, -⟩ := sigPrint_head t
    have hlen : 0 < (sigPrint t).length := by rw [hct]; simp
    rw [sigParseSeqAux.eq_def]
    rw [dif_pos (by simp [sigPrintList]; omega)]
    have hb : pre ++ sigPrintList (t :: ts') = pre ++ sigPrint t ++ sigPrintList ts' := by
      simp [sigPrintList]
    rw [hb, sigParseOne_print t pre (sigPrintList ts')]
    dsimp only
    rw [dif_pos hlen]
    have hp : pre.length + (sigPrint t).length = (pre ++ sigPrint t).length := by
      simp
    rw [hp, ih (pre ++ sigPrint t)]

/-- A printed type sequence parses back to itself as a signature. -/
theorem sigParseSeq_print (ts : List B1Type) :
    sigParseSeq (sigPrintList ts) = some ts := by
  have h := sigParseSeqAux_print ts []
  simpa [sigParseSeq] using h

/-! ## Messages

Modelled from the spec: the Message component (§3, §4.2) of the missing
library implementation.  A message is a payload byte buffer plus attached
handles and descriptors; it is mutable while *building* and immutable once
*sealed*; a received message is constructed sealed.  Write-side container
nesting (`beginv`/`end`) and read-side nesting (`enter`/`exit`) are tracked
as stacks of container codes; `end`/`exit` must close the innermost open
container and `seal` requires all containers closed.  Error returns are
negative errno values as in the C API. -/

def B1_MESSAGE_TYPE_NODE_DESTROY : Nat := 0
def B1_MESSAGE_TYPE_CALL : Nat := 1
def B1_MESSAGE_TYPE_REPLY : Nat := 2
def B1_MESSAGE_TYPE_ERROR : Nat := 3
def B1_MESSAGE_TYPE_SEED : Nat := 4

structure B1Message where
  mtype : Nat
  sealed : Bool
  payload : List Nat
  openContainers : List Char
  enteredContainers : List Char
  handles : List Nat
  fds : List Int
  readPos : Nat

/-- A fresh message under construction (as built by `b1_message_new_*`). -/
def b1_message_new (mtype : Nat) : B1Message :=
  { mtype := mtype, sealed := false, payload := [], openContainers := [],
    enteredContainers := [], handles := [], fds := [], readPos := 0 }

/-- The wire form of a message arriving over the channel. -/
structure WireMessage where
  wtype : Nat
  payload : List Nat
  handles : List Nat
  fds : List Int

/-- Modelled from the spec: the message construction performed by
`b1_peer_recv` for an inbound message — "A received message is always
sealed." -/
def b1_peer_recv (w : WireMessage) : B1Message :=
  { mtype := w.wtype, sealed := true, payload := w.payload,
    openContainers := [], enteredContainers := [], handles := w.handles,
    fds := w.fds, readPos := 0 }

/-- Modelled from the spec: `b1_message_is_sealed`. -/
def b1_message_is_sealed (m : B1Message) : Bool :=
  m.sealed

/-- Modelled from the spec: `b1_message_writev` — writes a run of values
against a sub-signature; fails on a sealed message (immutability), a
malformed signature, or values not matching the signature.  Returns the
C-style result code together with the message state after the call. -/
def b1_message_writev (m : B1Message) (signature : List Char)
    (vals : List B1Value) : Int × B1Message :=
  if m.sealed then (-EPERM, m)
  else
    match sigParseSeq signature with
    | none => (-EINVAL, m)
    | some ts =>
      if hasTypeList vals ts then
        (0, { m with payload := m.payload ++ encodeArr vals })
      else (-EINVAL, m)

/-- Modelled from the spec: `b1_message_readv` — reads a run of values
against a sub-signature from the read cursor.  Returns the result code, the
message state after the call, and the values read. -/
def b1_message_readv (m : B1Message) (signature : List Char) :
    Int × B1Message × Option (List B1Value) :=
  match sigParseSeq signature with
  | none => (-EINVAL, m, none)
  | some ts =>
    match decodeTup m.payload ts m.readPos with
    | some (vs, d) => (0, { m with readPos := m.readPos + d }, some vs)
    | none => (-EBADMSG, m, none)

/-- Modelled from the spec: `b1_message_rewind` — resets the read cursor to
the start without mutating data. -/
def b1_message_rewind (m : B1Message) : B1Message :=
  { m with readPos := 0, enteredContainers := [] }

/-- Modelled from the spec: `b1_message_beginv` — opens the given containers
on the write side, innermost last; fails on a sealed message. -/
def b1_message_beginv (m : B1Message) (containers : List Char) : Int × B1Message :=
  if m.sealed then (-EPERM, m)
  else (0, { m with openContainers := containers.reverse ++ m.openContainers })

/-- Closes the named containers against a container stack: each named
container must be the innermost one still open. -/
def closeContainers (stack : List Char) (containers : List Char) :
    Option (List Char) :=
  match containers, stack with
  | [], st => some st
  | c :: cs, top :: st => if top = c then closeContainers st cs else none
  | _ :: _, [] => none

/-- Modelled from the spec: `b1_message_end` — closes the named write-side
containers; fails on a sealed message and when a named container is not the
one currently begun. -/
def b1_message_end (m : B1Message) (containers : List Char) : Int × B1Message :=
  if m.sealed then (-EPERM, m)
  else
    match closeContainers m.openContainers containers with
    | some st => (0, { m with openContainers := st })
    | none => (-EINVAL, m)

/-- Modelled from the spec: `b1_message_enter` — enters the given containers
on the read side.  (Validation of the payload against the entered container
type is performed by `readv` in this model.) -/
def b1_message_enter (m : B1Message) (containers : List Char) : Int × B1Message :=
  (0, { m with enteredContainers := containers.reverse ++ m.enteredContainers })

/-- Modelled from the spec: `b1_message_exit` — exits the named read-side
containers; fails when a named container is not the one currently entered. -/
def b1_message_exit (m : B1Message) (containers : List Char) : Int × B1Message :=
  match closeContainers m.enteredContainers containers with
  | some st => (0, { m with enteredContainers := st })
  | none => (-EINVAL, m)

/-- Modelled from the spec: `b1_message_seal` — locks the payload; fails
while any begun container has not been ended. -/
def b1_message_seal (m : B1Message) : Int × B1Message :=
  if m.sealed then (0, m)
  else if m.openContainers.isEmpty then (0, { m with sealed := true })
  else (-EINVAL, m)

/-- Modelled from the spec: `b1_message_append_handle` — attaches a handle
to a message being built and returns its non-negative index; fails on a
sealed message. -/
def b1_message_append_handle (m : B1Message) (handle : Nat) : Int × B1Message :=
  if m.sealed then (-EPERM, m)
  else ((m.handles.length : Int), { m with handles := m.handles ++ [handle] })

/-- Modelled from the spec: `b1_message_append_fd` — attaches a raw
descriptor and returns its non-negative index; fails on a sealed message. -/
def b1_message_append_fd (m : B1Message) (fd : Int) : Int × B1Message :=
  if m.sealed then (-EPERM, m)
  else ((m.fds.length : Int), { m with fds := m.fds ++ [fd] })

/-- Modelled from the spec: `b1_message_get_handle` — bounds-checked access
to the attached handle at `index`. -/
def b1_message_get_handle (m : B1Message) (index : Nat) : Int × Option Nat :=
  match m.handles[index]? with
  | some h => (0, some h)
  | none => (-ERANGE, none)

/-- Modelled from the spec: `b1_message_get_fd` — bounds-checked access to
the attached descriptor at `index`. -/
def b1_message_get_fd (m : B1Message) (index : Nat) : Int × Option Int :=
  match m.fds[index]? with
  | some fd => (0, some fd)
  | none => (-ERANGE, none)

/-! ## Claim theorems about messages -/

/-- C1: every received message is sealed, and on a sealed message each
mutating operation (`writev`, `beginv`, `end`, `append_handle`,
`append_fd`) fails with a negative (immutability) error and leaves the
message unchanged. -/
theorem received_sealed_and_immutable :
    (∀ w : WireMessage, b1_message_is_sealed (b1_peer_recv w) = true) ∧
    (∀ (m : B1Message) (sig : List Char) (vals : List B1Value), m.sealed = true →
      (b1_message_writev m sig vals).1 < 0 ∧ (b1_message_writev m sig vals).2 = m) ∧
    (∀ (m : B1Message) (cs : List Char), m.sealed = true →
      (b1_message_beginv m cs).1 < 0 ∧ (b1_message_beginv m cs).2 = m) ∧
    (∀ (m : B1Message) (cs : List Char), m.sealed = true →
      (b1_message_end m cs).1 < 0 ∧ (b1_message_end m cs).2 = m) ∧
    (∀ (m : B1Message) (handle : Nat), m.sealed = true →
      (b1_message_append_handle m handle).1 < 0 ∧
        (b1_message_append_handle m handle).2 = m) ∧
    (∀ (m : B1Message) (fd : Int), m.sealed = true →
      (b1_message_append_fd m fd).1 < 0 ∧ (b1_message_append_fd m fd).2 = m) := by
  refine ⟨fun w => rfl, ?_, ?_, ?_, ?_, ?_⟩
  · intro m sig vals hs
    simp [b1_message_writev, hs, EPERM]
  · intro m cs hs
    simp [b1_message_beginv, hs, EPERM]
  · intro m cs hs
    simp [b1_message_end, hs, EPERM]
  · intro m handle hs
    simp [b1_message_append_handle, hs, EPERM]
  · intro m fd hs
    simp [b1_message_append_fd, hs, EPERM]

/-- C1 witness at a concrete received message. -/
theorem received_sealed_and_immutable_witness :
    b1_message_is_sealed (b1_peer_recv ⟨1, [], [], []⟩) = true ∧
    (b1_peer_recv ⟨1, [], [], []⟩).sealed = true ∧
    ((b1_message_writev (b1_peer_recv ⟨1, [], [], []⟩) ['u'] [B1Value.vu32 5]).1 < 0 ∧
      (b1_message_writev (b1_peer_recv ⟨1, [], [], []⟩) ['u'] [B1Value.vu32 5]).2 =
        b1_peer_recv ⟨1, [], [], []⟩) ∧
    ((b1_message_beginv (b1_peer_recv ⟨1, [], [], []⟩) ['a']).1 < 0 ∧
      (b1_message_beginv (b1_peer_recv ⟨1, [], [], []⟩) ['a']).2 =
        b1_peer_recv ⟨1, [], [], []⟩) ∧
    ((b1_message_end (b1_peer_recv ⟨1, [], [], []⟩) ['a']).1 < 0 ∧
      (b1_message_end (b1_peer_recv ⟨1, [], [], []⟩) ['a']).2 =
        b1_peer_recv ⟨1, [], [], []⟩) ∧
    ((b1_message_append_handle (b1_peer_recv ⟨1, [], [], []⟩) 3).1 < 0 ∧
      (b1_message_append_handle (b1_peer_recv ⟨1, [], [], []⟩) 3).2 =
        b1_peer_recv ⟨1, [], [], []⟩) ∧
    ((b1_message_append_fd (b1_peer_recv ⟨1, [], [], []⟩) 9).1 < 0 ∧
      (b1_message_append_fd (b1_peer_recv ⟨1, [], [], []⟩) 9).2 =
        b1_peer_recv ⟨1, [], [], []⟩) :=
  ⟨received_sealed_and_immutable.1 ⟨1, [], [], []⟩,
   rfl,
   received_sealed_and_immutable.2.1 (b1_peer_recv ⟨1, [], [], []⟩) ['u']
     [B1Value.vu32 5] rfl,
   received_sealed_and_immutable.2.2.1 (b1_peer_recv ⟨1, [], [], []⟩) ['a'] rfl,
   received_sealed_and_immutable.2.2.2.1 (b1_peer_recv ⟨1, [], [], []⟩) ['a'] rfl,
   received_sealed_and_immutable.2.2.2.2.1 (b1_peer_recv ⟨1, [], [], []⟩) 3 rfl,
   received_sealed_and_immutable.2.2.2.2.2 (b1_peer_recv ⟨1, [], [], []⟩) 9 rfl⟩

/-- C2: writing any values encodable under a valid signature to a fresh
message and reading them back under the same signature yields the same
values. -/
theorem writev_readv_roundtrip (sig : List Char) (ts : List B1Type)
    (vals : List B1Value) (mtype : Nat)
    (hsig : sigParseSeq sig = some ts) (hty : hasTypeList vals ts = true) :
    (b1_message_writev (b1_message_new mtype) sig vals).1 = 0 ∧
    (b1_message_readv (b1_message_writev (b1_message_new mtype) sig vals).2 sig).1 = 0 ∧
    (b1_message_readv (b1_message_writev (b1_message_new mtype) sig vals).2 sig).2.2 =
      some vals := by
  have hw : b1_message_writev (b1_message_new mtype) sig vals =
      (0, { b1_message_new mtype with payload := encodeArr vals }) := by
    simp [b1_message_writev, b1_message_new, hsig, hty]
  have hdec : decodeTup (encodeArr vals) ts 0 = some (vals, (encodeArr vals).length) := by
    have h := decodeTup_encodeArr vals ts hty [] []
    simpa using h
  refine ⟨by rw [hw], ?_, ?_⟩
  · rw [hw]
    simp [b1_message_readv, hsig, b1_message_new, hdec]
  · rw [hw]
    simp [b1_message_readv, hsig, b1_message_new, hdec]

/-- C2 witness: a tuple of a string and a u32 under the signature "(su)". -/
theorem writev_readv_roundtrip_witness :
    sigParseSeq (sigPrintList [B1Type.tup [B1Type.str, B1Type.u32]]) =
      some [B1Type.tup [B1Type.str, B1Type.u32]] ∧
    hasTypeList [B1Value.vtup [B1Value.vstr [104, 105], B1Value.vu32 7]]
      [B1Type.tup [B1Type.str, B1Type.u32]] = true ∧
    (b1_message_writev (b1_message_new 1)
        (sigPrintList [B1Type.tup [B1Type.str, B1Type.u32]])
        [B1Value.vtup [B1Value.vstr [104, 105], B1Value.vu32 7]]).1 = 0 ∧
    (b1_message_readv
        (b1_message_writev (b1_message_new 1)
          (sigPrintList [B1Type.tup [B1Type.str, B1Type.u32]])
          [B1Value.vtup [B1Value.vstr [104, 105], B1Value.vu32 7]]).2
        (sigPrintList [B1Type.tup [B1Type.str, B1Type.u32]])).2.2 =
      some [B1Value.vtup [B1Value.vstr [104, 105], B1Value.vu32 7]] :=
  ⟨sigParseSeq_print [B1Type.tup [B1Type.str, B1Type.u32]],
   by decide,
   (writev_readv_roundtrip _ _ _ 1
     (sigParseSeq_print [B1Type.tup [B1Type.str, B1Type.u32]]) (by decide)).1,
   (writev_readv_roundtrip _ _ _ 1
     (sigParseSeq_print [B1Type.tup [B1Type.str, B1Type.u32]]) (by decide)).2.2⟩

/-- C5: container operations are stack-disciplined — `exit` fails when the
named container is not the innermost entered one, `end` fails when the
named container is not the innermost begun one, and `seal` fails while a
begun container is not ended; each failure leaves the message unchanged. -/
theorem container_stack_discipline :
    (∀ (m : B1Message) (c : Char), m.enteredContainers.head? ≠ some c →
      (b1_message_exit m [c]).1 < 0 ∧ (b1_message_exit m [c]).2 = m) ∧
    (∀ (m : B1Message) (c : Char), m.openContainers.head? ≠ some c →
      (b1_message_end m [c]).1 < 0 ∧ (b1_message_end m [c]).2 = m) ∧
    (∀ m : B1Message, m.sealed = false → m.openContainers ≠ [] →
      (b1_message_seal m).1 < 0 ∧ (b1_message_seal m).2 = m) := by
  refine ⟨?_, ?_, ?_⟩
  · intro m c hne
    cases hst : m.enteredContainers with
    | nil =>
      simp [b1_message_exit, closeContainers, hst, EINVAL]
    | cons top st =>
      rw [hst] at hne
      have htc : top ≠ c := by simpa using hne
      simp [b1_message_exit, closeContainers, hst, htc, EINVAL]
  · intro m c hne
    by_cases hs : m.sealed
    · simp [b1_message_end, hs, EPERM]
    · cases hst : m.openContainers with
      | nil =>
        simp [b1_message_end, closeContainers, hs, hst, EINVAL]
      | cons top st =>
        rw [hst] at hne
        have htc : top ≠ c := by simpa using hne
        simp [b1_message_end, closeContainers, hs, hst, htc, EINVAL]
  · intro m hs hne
    cases hst : m.openContainers with
    | nil => exact absurd hst hne
    | cons top st =>
      simp [b1_message_seal, hs, hst, EINVAL]

/-- C5 witness: a message with one open/entered array container. -/
theorem container_stack_discipline_witness :
    ((b1_message_enter (b1_peer_recv ⟨1, [], [], []⟩) ['a']).2.enteredContainers.head? ≠
      some '(' ∧
      (b1_message_exit (b1_message_enter (b1_peer_recv ⟨1, [], [], []⟩) ['a']).2 ['(']).1 < 0) ∧
    ((b1_message_beginv (b1_message_new 1) ['a']).2.openContainers.head? ≠ some '(' ∧
      (b1_message_end (b1_message_beginv (b1_message_new 1) ['a']).2 ['(']).1 < 0) ∧
    ((b1_message_beginv (b1_message_new 1) ['a']).2.sealed = false ∧
      (b1_message_beginv (b1_message_new 1) ['a']).2.openContainers ≠ [] ∧
      (b1_message_seal (b1_message_beginv (b1_message_new 1) ['a']).2).1 < 0) :=
  ⟨⟨by decide,
    (container_stack_discipline.1 (b1_message_enter (b1_peer_recv ⟨1, [], [], []⟩) ['a']).2
      '(' (by decide)).1⟩,
   ⟨by decide,
    (container_stack_discipline.2.1 (b1_message_beginv (b1_message_new 1) ['a']).2
      '(' (by decide)).1⟩,
   ⟨rfl, by decide,
    (container_stack_discipline.2.2 (b1_message_beginv (b1_message_new 1) ['a']).2
      rfl (by decide)).1⟩⟩

/-- C6: appending a handle or descriptor to a message being built returns
the non-negative index at which it is stored; `get_handle`/`get_fd` return
the stored entry for any in-range index and fail for any out-of-range
index. -/
theorem handle_fd_indexing :
    (∀ (m : B1Message) (handle : Nat), m.sealed = false →
      (b1_message_append_handle m handle).1 = (m.handles.length : Int) ∧
      0 ≤ (b1_message_append_handle m handle).1 ∧
      b1_message_get_handle (b1_message_append_handle m handle).2 m.handles.length =
        (0, some handle)) ∧
    (∀ (m : B1Message) (fd : Int), m.sealed = false →
      (b1_message_append_fd m fd).1 = (m.fds.length : Int) ∧
      0 ≤ (b1_message_append_fd m fd).1 ∧
      b1_message_get_fd (b1_message_append_fd m fd).2 m.fds.length = (0, some fd)) ∧
    (∀ (m : B1Message) (i : Nat), i < m.handles.length →
      (b1_message_get_handle m i).1 = 0 ∧
      (b1_message_get_handle m i).2 = m.handles[i]?) ∧
    (∀ (m : B1Message) (i : Nat), m.handles.length ≤ i →
      (b1_message_get_handle m i).1 < 0 ∧ (b1_message_get_handle m i).2 = none) ∧
    (∀ (m : B1Message) (i : Nat), i < m.fds.length →
      (b1_message_get_fd m i).1 = 0 ∧ (b1_message_get_fd m i).2 = m.fds[i]?) ∧
    (∀ (m : B1Message) (i : Nat), m.fds.length ≤ i →
      (b1_message_get_fd m i).1 < 0 ∧ (b1_message_get_fd m i).2 = none) := by
  refine ⟨?_, ?_, ?_, ?_, ?_, ?_⟩
  · intro m handle hs
    refine ⟨by simp [b1_message_append_handle, hs], by simp [b1_message_append_handle, hs], ?_⟩
    simp [b1_message_append_handle, hs, b1_message_get_handle]
  · intro m fd hs
    refine ⟨by simp [b1_message_append_fd, hs], by simp [b1_message_append_fd, hs], ?_⟩
    simp [b1_message_append_fd, hs, b1_message_get_fd]
  · intro m i hi
    cases hx : m.handles[i]? with
    | none =>
      rw [List.getElem?_eq_none_iff] at hx
      omega
    | some h => simp [b1_message_get_handle, hx]
  · intro m i hi
    have hx : m.handles[i]? = none := List.getElem?_eq_none hi
    simp [b1_message_get_handle, hx, ERANGE]
  · intro m i hi
    cases hx : m.fds[i]? with
    | none =>
      rw [List.getElem?_eq_none_iff] at hx
      omega
    | some fd => simp [b1_message_get_fd, hx]
  · intro m i hi
    have hx : m.fds[i]? = none := List.getElem?_eq_none hi
    simp [b1_message_get_fd, hx, ERANGE]

/-- C6 witness: append to a fresh message and index it back. -/
theorem handle_fd_indexing_witness :
    (b1_message_new 1).sealed = false ∧
    (b1_message_append_handle (b1_message_new 1) 42).1 = 0 ∧
    b1_message_get_handle (b1_message_append_handle (b1_message_new 1) 42).2 0 =
      (0, some 42) ∧
    (b1_message_get_handle (b1_message_new 1) 0).1 < 0 :=
  ⟨rfl,
   (handle_fd_indexing.1 (b1_message_new 1) 42 rfl).1,
   (handle_fd_indexing.1 (b1_message_new 1) 42 rfl).2.2,
   (handle_fd_indexing.2.2.2.1 (b1_message_new 1) 0 (by decide)).1⟩

/-! ## Interfaces, members and dispatch

Modelled from the spec: the Interface/Member registry and the dispatch
algorithm (§4.5) of the missing library implementation. -/

structure B1Member where
  name : List Char
  type_input : List Char
  type_output : List Char
  handler : Nat

structure B1Interface where
  name : List Char
  members : List B1Member
  published : Bool

/-- Look up a member by the name carried in a call. -/
def findMember (iface : B1Interface) (member : List Char) : Option B1Member :=
  iface.members.find? (fun mem => decide (mem.name = member))

inductive DispatchResult : Type where
  | unknownDestination : DispatchResult
  | unknownMember : DispatchResult
  | signatureMismatch : DispatchResult
  | handled : Nat → DispatchResult

/-- Modelled from the spec: the dispatch algorithm of `b1_message_dispatch`
for an inbound CALL (§4.5): resolve the destination node's interface (fail
with "unknown destination" if stale), look up the member by the name carried
in the call (fail with "unknown member" if absent), validate the call's
payload signature against the member's declared input signature (fail with
"signature mismatch" otherwise), then invoke the handler. -/
def b1_message_dispatch_call (node : Option B1Interface) (member : List Char)
    (payload_sig : List Char) : DispatchResult :=
  match node with
  | none => DispatchResult.unknownDestination
  | some iface =>
    match findMember iface member with
    | none => DispatchResult.unknownMember
    | some mem =>
      if payload_sig = mem.type_input then DispatchResult.handled mem.handler
      else DispatchResult.signatureMismatch

/-- C3: dispatching a CALL at a resolved node yields "unknown member"
exactly when the carried member name is absent, "signature mismatch" when
the member is found but the payload signature differs from its declared
input signature, and reaches a handler only when name and signature both
resolve. -/
theorem dispatch_member_and_signature (iface : B1Interface) (member : List Char)
    (csig : List Char) :
    ((∀ mem ∈ iface.members, mem.name ≠ member) →
      b1_message_dispatch_call (some iface) member csig =
        DispatchResult.unknownMember) ∧
    (∀ mem, findMember iface member = some mem → csig ≠ mem.type_input →
      b1_message_dispatch_call (some iface) member csig =
        DispatchResult.signatureMismatch) ∧
    (∀ hdl, b1_message_dispatch_call (some iface) member csig =
        DispatchResult.handled hdl →
      ∃ mem, findMember iface member = some mem ∧ mem ∈ iface.members ∧
        mem.name = member ∧ csig = mem.type_input ∧ mem.handler = hdl) ∧
    (b1_message_dispatch_call none member csig =
      DispatchResult.unknownDestination) := by
  refine ⟨?_, ?_, ?_, rfl⟩
  · intro habsent
    have hfind : findMember iface member = none := by
      rw [findMember, List.find?_eq_none]
      intro mem hmem
      simpa using habsent mem hmem
    simp [b1_message_dispatch_call, hfind]
  · intro mem hfind hdiff
    simp [b1_message_dispatch_call, hfind, hdiff]
  · intro hdl hres
    rw [b1_message_dispatch_call] at hres
    cases hfind : findMember iface member with
    | none =>
      rw [hfind] at hres
      exact absurd hres (by simp)
    | some mem =>
      rw [hfind] at hres
      dsimp only at hres
      by_cases hsig : csig = mem.type_input
      · rw [if_pos hsig] at hres
        refine ⟨mem, rfl, List.mem_of_find?_eq_some hfind, ?_, hsig, ?_⟩
        · have := List.find?_some hfind
          simpa using this
        · exact DispatchResult.handled.inj hres
      · simp [hsig] at hres

/-- C3 witness: an interface with one member "hello" of input "(s)". -/
theorem dispatch_member_and_signature_witness :
    (∀ mem ∈ (B1Interface.mk ['G'] [B1Member.mk ['h'] ['s'] ['s'] 7] false).members,
      mem.name ≠ ['x']) ∧
    b1_message_dispatch_call
      (some (B1Interface.mk ['G'] [B1Member.mk ['h'] ['s'] ['s'] 7] false))
      ['x'] ['s'] = DispatchResult.unknownMember ∧
    findMember (B1Interface.mk ['G'] [B1Member.mk ['h'] ['s'] ['s'] 7] false) ['h'] =
      some (B1Member.mk ['h'] ['s'] ['s'] 7) ∧
    b1_message_dispatch_call
      (some (B1Interface.mk ['G'] [B1Member.mk ['h'] ['s'] ['s'] 7] false))
      ['h'] ['u'] = DispatchResult.signatureMismatch ∧
    b1_message_dispatch_call
      (some (B1Interface.mk ['G'] [B1Member.mk ['h'] ['s'] ['s'] 7] false))
      ['h'] ['s'] = DispatchResult.handled 7 :=
  ⟨by decide,
   (dispatch_member_and_signature
     (B1Interface.mk ['G'] [B1Member.mk ['h'] ['s'] ['s'] 7] false) ['x'] ['s']).1
     (by decide),
   rfl,
   (dispatch_member_and_signature
     (B1Interface.mk ['G'] [B1Member.mk ['h'] ['s'] ['s'] 7] false) ['h'] ['u']).2.1
     (B1Member.mk ['h'] ['s'] ['s'] 7) rfl (by decide),
   rfl⟩

/-- Modelled from the spec: `b1_interface_add_member` (§4.5, §7) — fails if
the interface is already in use by a node (frozen after publish), if the
member name is a duplicate, or on resource (allocation) failure; no partial
mutation is left behind.  `allocFail` stands for the allocator's outcome. -/
def b1_interface_add_member (iface : B1Interface) (name tin tout : List Char)
    (handler : Nat) (allocFail : Bool) : Int × B1Interface :=
  if iface.published then (-EBUSY, iface)
  else if iface.members.any (fun mem => decide (mem.name = name)) then
    (-ENOTUNIQ, iface)
  else if allocFail then (-ENOMEM, iface)
  else (0, { iface with
              members := iface.members ++ [B1Member.mk name tin tout handler] })

/-- C7: a failing `add_member` (published interface, duplicate name, or
resource failure) returns a negative code and leaves the interface exactly
as before the call; success appends exactly the one new member. -/
theorem add_member_atomic (iface : B1Interface) (name tin tout : List Char)
    (handler : Nat) (allocFail : Bool) :
    (iface.published = true →
      (b1_interface_add_member iface name tin tout handler allocFail).1 < 0) ∧
    (iface.members.any (fun mem => decide (mem.name = name)) = true →
      (b1_interface_add_member iface name tin tout handler allocFail).1 < 0) ∧
    (allocFail = true →
      (b1_interface_add_member iface name tin tout handler allocFail).1 < 0) ∧
    ((b1_interface_add_member iface name tin tout handler allocFail).1 < 0 →
      (b1_interface_add_member iface name tin tout handler allocFail).2 = iface) ∧
    ((b1_interface_add_member iface name tin tout handler allocFail).1 = 0 →
      (b1_interface_add_member iface name tin tout handler allocFail).2.members =
        iface.members ++ [B1Member.mk name tin tout handler]) := by
  rw [b1_interface_add_member]
  by_cases hp : iface.published
  · simp [hp, EBUSY]
  · by_cases hdup : iface.members.any (fun mem => decide (mem.name = name))
    · simp [hp, hdup, ENOTUNIQ]
    · cases allocFail with
      | true => simp [hp, hdup, ENOMEM]
      | false => simp [hp, hdup]

/-- C7 witness: duplicate member name on a concrete interface. -/
theorem add_member_atomic_witness :
    (B1Interface.mk ['G'] [B1Member.mk ['h'] ['s'] ['s'] 7] false).members.any
      (fun mem => decide (mem.name = ['h'])) = true ∧
    (b1_interface_add_member
      (B1Interface.mk ['G'] [B1Member.mk ['h'] ['s'] ['s'] 7] false)
      ['h'] ['u'] ['u'] 8 false).1 < 0 ∧
    (b1_interface_add_member
      (B1Interface.mk ['G'] [B1Member.mk ['h'] ['s'] ['s'] 7] false)
      ['h'] ['u'] ['u'] 8 false).2 =
      B1Interface.mk ['G'] [B1Member.mk ['h'] ['s'] ['s'] 7] false :=
  ⟨by decide,
   (add_member_atomic (B1Interface.mk ['G'] [B1Member.mk ['h'] ['s'] ['s'] 7] false)
     ['h'] ['u'] ['u'] 8 false).2.1 (by decide),
   (add_member_atomic (B1Interface.mk ['G'] [B1Member.mk ['h'] ['s'] ['s'] 7] false)
     ['h'] ['u'] ['u'] 8 false).2.2.2.1
     ((add_member_atomic (B1Interface.mk ['G'] [B1Member.mk ['h'] ['s'] ['s'] 7] false)
       ['h'] ['u'] ['u'] 8 false).2.1 (by decide))⟩

/-! ## Peers, reply slots and subscriptions

Modelled from the spec: Peer and ReplySlot (§3, §4.6) and Subscription
(§3, §4.7) of the missing library implementation. -/

structure B1ReplySlot where
  slotId : Nat
  deriving DecidableEq

inductive SlotCondition : Type where
  | connectionClosed : SlotCondition
  deriving DecidableEq

/-- One completion-callback invocation, recorded as an event. -/
structure CallbackEvent where
  slot : Nat
  cond : SlotCondition

structure B1Peer where
  n_ref : Nat
  nodes : List Nat
  slots : List B1ReplySlot

/-- Modelled from the spec: `b1_peer_unref` — dropping a non-last reference
only decrements the count; dropping the last reference destroys the peer,
failing every ReplySlot still pending with a "connection closed" condition
and releasing every owned node.  Returns the peer state (none once
destroyed) and the callback invocations performed. -/
def b1_peer_unref (p : B1Peer) : Option B1Peer × List CallbackEvent :=
  if p.n_ref > 1 then (some { p with n_ref := p.n_ref - 1 }, [])
  else (none, p.slots.map (fun s => CallbackEvent.mk s.slotId SlotCondition.connectionClosed))

/-- Nodes still reachable through a peer state. -/
def b1_peer_live_nodes : Option B1Peer → List Nat
  | none => []
  | some p => p.nodes

/-- C4: destroying a peer (last reference dropped) with N pending ReplySlots
invokes exactly one callback per slot, every one with the "connection
closed" condition, and leaves no owned node reachable. -/
theorem peer_teardown (p : B1Peer) (hlast : p.n_ref = 1) :
    (b1_peer_unref p).1 = none ∧
    b1_peer_live_nodes (b1_peer_unref p).1 = [] ∧
    (b1_peer_unref p).2.length = p.slots.length ∧
    ((b1_peer_unref p).2.map (fun e => e.slot)) = p.slots.map (fun s => s.slotId) ∧
    (∀ e ∈ (b1_peer_unref p).2, e.cond = SlotCondition.connectionClosed) ∧
    ((p.slots.map (fun s => s.slotId)).Nodup → ∀ s ∈ p.slots,
      ((b1_peer_unref p).2.map (fun e => e.slot)).count s.slotId = 1) := by
  have hu : b1_peer_unref p =
      (none, p.slots.map (fun s => CallbackEvent.mk s.slotId SlotCondition.connectionClosed)) := by
    rw [b1_peer_unref, if_neg (by omega)]
  rw [hu]
  refine ⟨rfl, rfl, by simp, by simp, ?_, ?_⟩
  · intro e he
    simp at he
    obtain ⟨s, -, rfl⟩ := he
    rfl
  · intro hnodup s hs
    have hmap : (p.slots.map
        (fun s => CallbackEvent.mk s.slotId SlotCondition.connectionClosed)).map
        (fun e => e.slot) = p.slots.map (fun s => s.slotId) := by
      simp
    rw [hmap]
    exact List.count_eq_one_of_mem hnodup (List.mem_map_of_mem _ hs)

/-- C4 witness: a peer with two pending slots and one node. -/
theorem peer_teardown_witness :
    (B1Peer.mk 1 [5] [B1ReplySlot.mk 10, B1ReplySlot.mk 11]).n_ref = 1 ∧
    (b1_peer_unref (B1Peer.mk 1 [5] [B1ReplySlot.mk 10, B1ReplySlot.mk 11])).1 = none ∧
    (b1_peer_unref (B1Peer.mk 1 [5] [B1ReplySlot.mk 10, B1ReplySlot.mk 11])).2.length = 2 ∧
    ((B1Peer.mk 1 [5] [B1ReplySlot.mk 10, B1ReplySlot.mk 11]).slots.map
      (fun s => s.slotId)).Nodup ∧
    ((b1_peer_unref (B1Peer.mk 1 [5] [B1ReplySlot.mk 10, B1ReplySlot.mk 11])).2.map
      (fun e => e.slot)).count 10 = 1 :=
  ⟨rfl,
   (peer_teardown (B1Peer.mk 1 [5] [B1ReplySlot.mk 10, B1ReplySlot.mk 11]) rfl).1,
   (peer_teardown (B1Peer.mk 1 [5] [B1ReplySlot.mk 10, B1ReplySlot.mk 11]) rfl).2.2.1,
   by decide,
   (peer_teardown (B1Peer.mk 1 [5] [B1ReplySlot.mk 10, B1ReplySlot.mk 11]) rfl).2.2.2.2.2
     (by decide) (B1ReplySlot.mk 10) (by decide)⟩

/-- State of one Subscription together with its target's reachability. -/
structure SubState where
  targetReachable : Bool
  active : Bool

/-- Modelled from the spec: Subscription firing — a subscription "fires its
callback exactly once, when the referenced target becomes unreachable, then
becomes inert" (§3).  A node release or destroy makes the target
unreachable; the returned number counts callback invocations. -/
inductive NodeEvent : Type where
  | release : NodeEvent
  | destroy : NodeEvent

def subStep (st : SubState) (e : NodeEvent) : SubState × Nat :=
  match e with
  | NodeEvent.release =>
    if st.targetReachable then
      (SubState.mk false false, if st.active then 1 else 0)
    else (st, 0)
  | NodeEvent.destroy =>
    if st.targetReachable then
      (SubState.mk false false, if st.active then 1 else 0)
    else (st, 0)

/-- Total number of callback invocations over a sequence of node events. -/
def subRun (st : SubState) : List NodeEvent → SubState × Nat
  | [] => (st, 0)
  | e :: es =>
    ((subRun (subStep st e).1 es).1, (subStep st e).2 + (subRun (subStep st e).1 es).2)

/-- A freshly registered subscription on a live target. -/
def subInit : SubState := SubState.mk true true

theorem subStep_unreachable (st : SubState) (e : NodeEvent)
    (h : st.targetReachable = false) : subStep st e = (st, 0) := by
  cases e <;> simp [subStep, h]

theorem subRun_unreachable (es : List NodeEvent) (st : SubState)
    (h : st.targetReachable = false) : subRun st es = (st, 0) := by
  induction es generalizing st with
  | nil => rfl
  | cons e es ih =>
    rw [subRun, subStep_unreachable st e h]
    simp [ih st h]

/-- C8: a subscription on a live target fires exactly once, at the event
that makes the target unreachable, and never fires again on any later
release or destroy of that target. -/
theorem subscription_fires_once (e : NodeEvent) (es : List NodeEvent) :
    (subStep subInit e).2 = 1 ∧
    (subRun (subStep subInit e).1 es).2 = 0 ∧
    (subRun subInit (e :: es)).2 = 1 ∧
    (subRun subInit []).2 = 0 := by
  have hstep : subStep subInit e = (SubState.mk false false, 1) := by
    cases e <;> rfl
  refine ⟨by rw [hstep], ?_, ?_, rfl⟩
  · rw [hstep, subRun_unreachable es (SubState.mk false false) rfl]
  · rw [subRun, hstep, subRun_unreachable es (SubState.mk false false) rfl]
    rfl

/-! ## The activator sample (`src/test-activator.c`)

Translated directly from the source file. -/

/-- From `test-activator.c`: the `Manager` record (reference count and the
two rbtrees, kept here as the lists of keys they hold). -/
structure Manager where
  n_ref : Nat
  components : List String
  dependencies : List String

/-- From `test-activator.c` `manager_unref` (lines 49-67): a NULL argument
is a no-op returning NULL; otherwise the count is decremented (the source
asserts it was positive), the manager is freed exactly when the count
reaches zero, and NULL is returned.  The single heap cell is modelled as
`Option Manager`: the first component is the cell after the call, the
second the returned pointer. -/
def manager_unref (m : Option Manager) : Option Manager × Option Manager :=
  match m with
  | none => (none, none)
  | some mg =>
    if mg.n_ref - 1 ≠ 0 then (some { mg with n_ref := mg.n_ref - 1 }, none)
    else (none, none)

/-- From `test-activator.c` `manager_ref` (lines 73-82): a NULL argument
returns NULL without effect; otherwise the count is incremented (the source
asserts it was positive) and the same pointer is returned. -/
def manager_ref (m : Option Manager) : Option Manager × Option Manager :=
  match m with
  | none => (none, none)
  | some mg =>
    (some { mg with n_ref := mg.n_ref + 1 }, some { mg with n_ref := mg.n_ref + 1 })

/-- C10: manager reference counting: `manager_ref` increments the count and
returns the same (updated) cell, `manager_unref` decrements, frees the
manager exactly when the count reaches zero and always returns NULL, both
accept NULL without effect, and a positive count stays positive on every
surviving manager. -/
theorem manager_refcount :
    manager_ref none = (none, none) ∧
    manager_unref none = (none, none) ∧
    (∀ mg : Manager, 0 < mg.n_ref →
      (manager_ref (some mg)).1 = some { mg with n_ref := mg.n_ref + 1 } ∧
      (manager_ref (some mg)).2 = (manager_ref (some mg)).1 ∧
      (∀ mg', (manager_ref (some mg)).1 = some mg' → 0 < mg'.n_ref)) ∧
    (∀ mg : Manager, 0 < mg.n_ref →
      (manager_unref (some mg)).2 = none ∧
      ((manager_unref (some mg)).1 = none ↔ mg.n_ref = 1) ∧
      (∀ mg', (manager_unref (some mg)).1 = some mg' →
        mg'.n_ref = mg.n_ref - 1 ∧ 0 < mg'.n_ref)) := by
  refine ⟨rfl, rfl, ?_, ?_⟩
  · intro mg hpos
    refine ⟨rfl, rfl, ?_⟩
    intro mg' h
    injection h with h
    subst h
    simp
  · intro mg hpos
    rw [manager_unref]
    by_cases hz : mg.n_ref - 1 ≠ 0
    · rw [if_pos hz]
      refine ⟨rfl, ?_, ?_⟩
      · constructor
        · intro h
          exact absurd h (by simp)
        · intro h
          omega
      · intro mg' h
        injection h with h
        subst h
        refine ⟨rfl, ?_⟩
        simp
        omega
    · rw [if_neg hz]
      refine ⟨rfl, ?_, ?_⟩
      · constructor
        · intro h
          omega
        · intro h
          rfl
      · intro mg' h
        exact Option.noConfusion h

/-- C10 witness: a manager with two references. -/
theorem manager_refcount_witness :
    (0 : Nat) < (Manager.mk 2 [] []).n_ref ∧
    (manager_unref (some (Manager.mk 2 [] []))).1 = some (Manager.mk 1 [] []) ∧
    (manager_unref (some (Manager.mk 1 [] []))).1 = none ∧
    (manager_ref (some (Manager.mk 1 [] []))).2 = some (Manager.mk 2 [] []) :=
  ⟨by decide,
   by
     have h := (manager_refcount.2.2.2 (Manager.mk 2 [] []) (by decide)).2.1
     rfl,
   ((manager_refcount.2.2.2 (Manager.mk 1 [] []) (by decide)).2.1).mpr rfl,
   by
     have h := (manager_refcount.2.2.1 (Manager.mk 1 [] []) (by decide)).2.1
     rw [h, (manager_refcount.2.2.1 (Manager.mk 1 [] []) (by decide)).1]⟩

/-- From `test-activator.c` `component_new` (lines 164-178): the dependency
name buffer is sized from the caller's `dependencies` strings, but the copy
loop at lines 175-178 writes a copy of `name` into every slot
(`buf = stpcpy(buf, name) + 1`), ignoring `dependencies[i]`. -/
def componentDepsLoop (name : String) : Nat → List String
  | 0 => []
  | n + 1 => componentDepsLoop name n ++ [name]

/-- From `test-activator.c`: the `Component` fields filled in by
`component_new` before the peer/node steps. -/
structure Component where
  name : String
  dependencies : List String
  n_dependencies : Nat

/-- From `test-activator.c` `component_new` (lines 147-202): fails with
`-ENOTUNIQ` when a component of the same name is already registered,
otherwise stores the name and fills the dependency array by the loop of
lines 175-178. -/
def component_new (components : List String) (name : String)
    (dependencies : List String) : Except Int Component :=
  if components.contains name then Except.error (-ENOTUNIQ)
  else Except.ok (Component.mk name
    (componentDepsLoop name dependencies.length) dependencies.length)

theorem componentDepsLoop_length (name : String) (n : Nat) :
    (componentDepsLoop name n).length = n := by
  induction n with
  | zero => rfl
  | succ n ih => simp [componentDepsLoop, ih]

theorem componentDepsLoop_get (name : String) (n i : Nat) (hi : i < n) :
    (componentDepsLoop name n)[i]? = some name := by
  induction n with
  | zero => omega
  | succ n ih =>
    rw [componentDepsLoop]
    by_cases hlt : i < n
    · rw [List.getElem?_append, if_pos (by rw [componentDepsLoop_length]; exact hlt)]
      exact ih hlt
    · have hieq : i = n := by omega
      subst hieq
      rw [List.getElem?_append_right (by rw [componentDepsLoop_length])]
      rw [componentDepsLoop_length]
      simp

/-- C9: every successful `component_new` stores, for each index below
`n_dependencies`, a copy of the component's own `name` argument as the
dependency string, whatever the caller passed in `dependencies`. -/
theorem component_new_deps (components : List String) (name : String)
    (dependencies : List String) (c : Component)
    (hok : component_new components name dependencies = Except.ok c) :
    c.n_dependencies = dependencies.length ∧
    c.dependencies.length = dependencies.length ∧
    (∀ i, i < dependencies.length → c.dependencies[i]? = some name) := by
  rw [component_new] at hok
  by_cases hc : components.contains name
  · rw [if_pos hc] at hok
    exact Except.noConfusion hok
  · rw [if_neg hc] at hok
    injection hok with hok
    subst hok
    refine ⟨rfl, componentDepsLoop_length name dependencies.length, ?_⟩
    intro i hi
    exact componentDepsLoop_get name dependencies.length i hi

/-- C9 witness: the call made by `main` — `component_new(manager, &foo,
"org.bus1.foo", {"org.bus1.bar", "org.bus1.baz"}, 2)` stores
`{"org.bus1.foo", "org.bus1.foo"}`. -/
theorem component_new_deps_witness :
    component_new [] "org.bus1.foo" ["org.bus1.bar", "org.bus1.baz"] =
      Except.ok (Component.mk "org.bus1.foo" ["org.bus1.foo", "org.bus1.foo"] 2) ∧
    (Component.mk "org.bus1.foo" ["org.bus1.foo", "org.bus1.foo"] 2).dependencies[0]? =
      some "org.bus1.foo" ∧
    (Component.mk "org.bus1.foo" ["org.bus1.foo", "org.bus1.foo"] 2).dependencies[1]? =
      some "org.bus1.foo" :=
  ⟨rfl,
   (component_new_deps [] "org.bus1.foo" ["org.bus1.bar", "org.bus1.baz"]
     (Component.mk "org.bus1.foo" ["org.bus1.foo", "org.bus1.foo"] 2) rfl).2.2 0
     (by decide),
   (component_new_deps [] "org.bus1.foo" ["org.bus1.bar", "org.bus1.baz"]
     (Component.mk "org.bus1.foo" ["org.bus1.foo", "org.bus1.foo"] 2) rfl).2.2 1
     (by decide)⟩

end Bus1
